import Mathlib

/-!
Verification development for the DomainJaasoos probing pipeline (main.go).

The Go program probes hostnames over HTTPS and HTTP with a two-stage
worker pool, aggregates the emitted Results by status code, and writes
them to a JSON file.  The definitions below are a shallow embedding of
the functions in main.go; theorems about them settle the specification
claims.
-/

namespace DomainJaasoos

/-- Outcome of one HTTP round trip as observed by getStatusAndRedirect
(main.go 304-329): either http.NewRequest failed, or client.Do returned
an error (timeout, refused connection, TLS failure, ...), or a response
arrived carrying a parsed status code (Go net/http rejects negative
status codes, so Nat) and the value of its Location header (empty when
the header is absent). -/
inductive ProbeOutcome where
  | reqError : ProbeOutcome
  | transportError : ProbeOutcome
  | response (statusCode : Nat) (location : String) : ProbeOutcome
deriving DecidableEq

/-- The Result record (main.go 32-36). -/
structure Result where
  URL : String
  StatusCode : Nat
  RedirectedURL : String
deriving DecidableEq

/-- getStatusAndRedirect (main.go 304-329).  Both failure paths return
the sentinel (0, "").  For a response, redirectedURL starts out empty
and is set to the Location header value exactly when the status code
lies in [300,400). -/
def getStatusAndRedirect (o : ProbeOutcome) : Nat × String :=
  match o with
  | .reqError => (0, "")
  | .transportError => (0, "")
  | .response statusCode location =>
      let redirectedURL := if 300 ≤ statusCode ∧ statusCode < 400 then location else ""
      (statusCode, redirectedURL)

/-- Body of one HTTPS worker iteration (main.go 104-125): probe
https of the url; when the status code is non-zero emit a Result built
from "https://" ++ url; forward the bare url onto the HTTP queue unless
a result was obtained and preferHTTPS is set.  Returns the emitted
Result (if any) and whether the url is forwarded to httpURLs. -/
def httpsWorkerStep (preferHTTPS : Bool) (url : String) (o : ProbeOutcome) :
    Option Result × Bool :=
  let sr := getStatusAndRedirect o
  if sr.1 ≠ 0 then
    (some { URL := "https://" ++ url, StatusCode := sr.1, RedirectedURL := sr.2 },
     !preferHTTPS)
  else
    (none, true)

/-- Body of one HTTP worker iteration (main.go 137-151): probe
http of the url; when the status code is non-zero emit a Result built
from "http://" ++ url.  This stage is terminal: nothing is forwarded. -/
def httpWorkerStep (url : String) (o : ProbeOutcome) : Option Result :=
  let sr := getStatusAndRedirect o
  if sr.1 ≠ 0 then
    some { URL := "http://" ++ url, StatusCode := sr.1, RedirectedURL := sr.2 }
  else
    none

/-- One step of the Aggregator (main.go 171):
results[res.StatusCode] = append(results[res.StatusCode], res).
The Go map is modelled as an association list whose keys appear in
first-insertion order; a fresh key is appended at the end. -/
def addResult : List (Nat × List Result) → Result → List (Nat × List Result)
  | [], r => [(r.StatusCode, [r])]
  | (c, l) :: rest, r =>
      if c = r.StatusCode then (c, l ++ [r]) :: rest
      else (c, l) :: addResult rest r

/-- The Aggregator (main.go 169-174): fold the Results arriving on the
output channel, in arrival order, into the map. -/
def aggregate (rs : List Result) : List (Nat × List Result) :=
  rs.foldl addResult []

/-- Keys of the association list modelling the Go map. -/
def keysOf (m : List (Nat × List Result)) : List Nat :=
  m.map Prod.fst

lemma mem_keysOf_addResult (m : List (Nat × List Result)) (r : Result) (c : Nat) :
    c ∈ keysOf (addResult m r) ↔ c ∈ keysOf m ∨ c = r.StatusCode := by
  induction m with
  | nil => simp [addResult, keysOf]
  | cons p rest ih =>
      obtain ⟨k, l⟩ := p
      by_cases hk : k = r.StatusCode
      · subst hk
        simp [addResult, keysOf]
        tauto
      · simp only [addResult, if_neg hk, keysOf, List.map_cons, List.mem_cons]
        rw [keysOf] at ih
        rw [ih]
        tauto

lemma mem_keysOf_foldl (rs : List Result) (m : List (Nat × List Result)) (c : Nat) :
    c ∈ keysOf (rs.foldl addResult m) ↔
      c ∈ keysOf m ∨ c ∈ rs.map Result.StatusCode := by
  induction rs generalizing m with
  | nil => simp
  | cons r rs ih =>
      simp only [List.foldl_cons, ih, mem_keysOf_addResult, List.map_cons, List.mem_cons]
      tauto

lemma mem_keysOf_aggregate (rs : List Result) (c : Nat) :
    c ∈ keysOf (aggregate rs) ↔ c ∈ rs.map Result.StatusCode := by
  rw [aggregate, mem_keysOf_foldl]
  simp [keysOf]

/-- C3: a Result is emitted on the output channel only when the prober
returned a non-zero status code (main.go 110 and 142), so every Result
reaching the Aggregator has positive StatusCode and the sentinel 0 never
appears as a key of the aggregated ResultSet. -/
theorem emitted_results_have_positive_status
    (pref : Bool) (url : String) (o : ProbeOutcome) (r : Result) (rs : List Result) :
    (((httpsWorkerStep pref url o).1 = some r ∨ httpWorkerStep url o = some r) →
      0 < r.StatusCode) ∧
    ((getStatusAndRedirect o).1 = 0 →
      (httpsWorkerStep pref url o).1 = none ∧ httpWorkerStep url o = none) ∧
    ((∀ x ∈ rs, 0 < x.StatusCode) → ∀ c ∈ keysOf (aggregate rs), 0 < c) := by
  refine ⟨?_, ?_, ?_⟩
  · intro h
    by_cases hsc : (getStatusAndRedirect o).1 ≠ 0
    · rcases h with h | h
      · rw [httpsWorkerStep, if_pos hsc] at h
        simp only [Option.some.injEq] at h
        subst h
        exact Nat.pos_of_ne_zero hsc
      · rw [httpWorkerStep, if_pos hsc] at h
        simp only [Option.some.injEq] at h
        subst h
        exact Nat.pos_of_ne_zero hsc
    · rcases h with h | h
      · rw [httpsWorkerStep, if_neg hsc] at h
        simp at h
      · rw [httpWorkerStep, if_neg hsc] at h
        simp at h
  · intro h0
    have hsc : ¬ (getStatusAndRedirect o).1 ≠ 0 := by omega
    constructor
    · rw [httpsWorkerStep, if_neg hsc]
    · rw [httpWorkerStep, if_neg hsc]
  · intro hall c hc
    rw [mem_keysOf_aggregate] at hc
    obtain ⟨x, hx, hxc⟩ := List.mem_map.mp hc
    exact hxc ▸ hall x hx

/-- Witness for the C3 theorem at a concrete probe outcome and result list. -/
theorem emitted_results_have_positive_status_witness :
    0 < (Result.mk "https://example.com" 200 "").StatusCode ∧
    ((httpsWorkerStep true "example.com" ProbeOutcome.transportError).1 = none ∧
      httpWorkerStep "example.com" ProbeOutcome.transportError = none) ∧
    (∀ c ∈ keysOf (aggregate [Result.mk "https://example.com" 200 ""]), 0 < c) := by
  refine ⟨?_, ?_, ?_⟩
  · exact (emitted_results_have_positive_status true "example.com"
      (ProbeOutcome.response 200 "") (Result.mk "https://example.com" 200 "") []).1
      (Or.inl (by rfl))
  · exact (emitted_results_have_positive_status true "example.com"
      ProbeOutcome.transportError (Result.mk "https://example.com" 200 "") []).2.1 rfl
  · exact (emitted_results_have_positive_status true "example.com"
      (ProbeOutcome.response 200 "") (Result.mk "https://example.com" 200 "")
      [Result.mk "https://example.com" 200 ""]).2.2
      (by intro x hx; simp at hx; subst hx; decide)

/-- C5: on request-construction failure or transport failure
getStatusAndRedirect returns exactly (0, ""), and a returned status 0 is
never paired with a non-empty redirect string. -/
theorem failure_returns_zero_sentinel (o : ProbeOutcome) :
    ((o = ProbeOutcome.reqError ∨ o = ProbeOutcome.transportError) →
      getStatusAndRedirect o = (0, "")) ∧
    ((getStatusAndRedirect o).1 = 0 → (getStatusAndRedirect o).2 = "") := by
  constructor
  · rintro (rfl | rfl) <;> rfl
  · cases o with
    | reqError => intro _; rfl
    | transportError => intro _; rfl
    | response sc loc =>
        intro h
        simp only [getStatusAndRedirect] at h ⊢
        have : ¬ (300 ≤ sc ∧ sc < 400) := by omega
        rw [if_neg this]

/-- Witness for the C5 theorem at the two concrete failure outcomes. -/
theorem failure_returns_zero_sentinel_witness :
    getStatusAndRedirect ProbeOutcome.reqError = (0, "") ∧
    getStatusAndRedirect ProbeOutcome.transportError = (0, "") := by
  constructor
  · exact (failure_returns_zero_sentinel ProbeOutcome.reqError).1 (Or.inl rfl)
  · exact (failure_returns_zero_sentinel ProbeOutcome.transportError).1 (Or.inr rfl)

/-- C2 counterexample: an HTTP worker probing foo.test that receives a
304 response without a Location header (304 Not Modified never carries
one) emits a Result whose StatusCode lies in [300,400) but whose
RedirectedURL is empty, refuting the claimed iff at this Result. -/
theorem redirect_iff_counterexample :
    httpWorkerStep "foo.test" (ProbeOutcome.response 304 "") =
      some { URL := "http://foo.test", StatusCode := 304, RedirectedURL := "" } ∧
    ¬ (({ URL := "http://foo.test", StatusCode := 304,
          RedirectedURL := "" : Result }.RedirectedURL ≠ "") ↔
        (300 ≤ (304 : Nat) ∧ (304 : Nat) < 400)) := by
  constructor
  · rfl
  · decide

/-- C2 amended: for every Result emitted by a worker, a non-empty
RedirectedURL implies StatusCode is in [300,400); and for a response
whose status is in [300,400) the redirect component equals the Location
header value, which may itself be empty.  The original iff fails in the
other direction exactly when a 3xx response carries no Location. -/
theorem redirect_nonempty_implies_3xx
    (pref : Bool) (url : String) (o : ProbeOutcome) (r : Result)
    (sc : Nat) (loc : String) :
    (((httpsWorkerStep pref url o).1 = some r ∨ httpWorkerStep url o = some r) →
      r.RedirectedURL ≠ "" → 300 ≤ r.StatusCode ∧ r.StatusCode < 400) ∧
    (300 ≤ sc → sc < 400 →
      getStatusAndRedirect (ProbeOutcome.response sc loc) = (sc, loc)) := by
  constructor
  · intro hemit hne
    by_cases hsc : (getStatusAndRedirect o).1 ≠ 0
    · have hr : r.StatusCode = (getStatusAndRedirect o).1 ∧
          r.RedirectedURL = (getStatusAndRedirect o).2 := by
        rcases hemit with h | h
        · rw [httpsWorkerStep, if_pos hsc] at h
          simp only [Option.some.injEq] at h
          subst h
          exact ⟨rfl, rfl⟩
        · rw [httpWorkerStep, if_pos hsc] at h
          simp only [Option.some.injEq] at h
          subst h
          exact ⟨rfl, rfl⟩
      cases o with
      | reqError => simp [getStatusAndRedirect] at hsc
      | transportError => simp [getStatusAndRedirect] at hsc
      | response sc0 loc0 =>
          by_cases hrange : 300 ≤ sc0 ∧ sc0 < 400
          · simp only [getStatusAndRedirect] at hr
            omega
          · exfalso
            apply hne
            rw [hr.2]
            simp only [getStatusAndRedirect]
            rw [if_neg hrange]
    · rcases hemit with h | h
      · rw [httpsWorkerStep, if_neg hsc] at h
        simp at h
      · rw [httpWorkerStep, if_neg hsc] at h
        simp at h
  · intro h1 h2
    simp only [getStatusAndRedirect]
    rw [if_pos ⟨h1, h2⟩]

/-- Witness for the amended C2 theorem at a 301 response that does carry
a Location header. -/
theorem redirect_nonempty_implies_3xx_witness :
    (300 ≤ (Result.mk "https://x" 301 "https://y/").StatusCode ∧
      (Result.mk "https://x" 301 "https://y/").StatusCode < 400) ∧
    getStatusAndRedirect (ProbeOutcome.response 301 "https://y/") =
      (301, "https://y/") := by
  constructor
  · exact (redirect_nonempty_implies_3xx false "x"
      (ProbeOutcome.response 301 "https://y/") (Result.mk "https://x" 301 "https://y/")
      301 "https://y/").1 (Or.inl rfl) (by decide)
  · exact (redirect_nonempty_implies_3xx false "x"
      (ProbeOutcome.response 301 "https://y/") (Result.mk "https://x" 301 "https://y/")
      301 "https://y/").2 (by decide) (by decide)

/-- The scheme queue a probe target is routed to: httpsURLs or httpURLs
(main.go 94-95). -/
inductive Queue where
  | https : Queue
  | http : Queue
deriving DecidableEq

/-- Models strings.ToLower as used on the proto component of a probe
spec (main.go 219): Char.toLower lowercases ASCII letters and keeps
every other character. -/
def lowerString (s : String) : String :=
  String.mk (s.data.map Char.toLower)

/-- Core of splitN2: walk the characters, splitting at the first colon;
acc holds the already-scanned prefix in reverse. -/
def splitN2Core : List Char → List Char → List String
  | [], acc => [String.mk acc.reverse]
  | c :: cs, acc =>
      if c = ':' then [String.mk acc.reverse, String.mk cs]
      else splitN2Core cs (c :: acc)

/-- Models strings.SplitN(p, ":", 2) (main.go 210): a string without a
colon stays whole, otherwise it is split into the part before the first
colon and everything after it. -/
def splitN2 (p : String) : List String :=
  splitN2Core p.data []

/-- Port list of the xlarge preset (main.go 198). -/
def xlargePorts : List String :=
  ["81", "300", "591", "593", "832", "981", "1010", "1311", "2082", "2087",
   "2095", "2096", "2480", "3000", "3128", "3333", "4243", "4567", "4711",
   "4712", "4993", "5000", "5104", "5108", "5800", "6543", "7000", "7396",
   "7474", "8000", "8001", "8008", "8014", "8042", "8069", "8080", "8081",
   "8088", "8090", "8091", "8118", "8123", "8172", "8222", "8243", "8280",
   "8281", "8333", "8443", "8500", "8834", "8880", "8888", "8983", "9000",
   "9043", "9060", "9080", "9090", "9091", "9200", "9443", "9800", "9981",
   "12443", "16080", "18091", "18092", "20720", "28017"]

/-- Port list of the large preset (main.go 204). -/
def largePorts : List String :=
  ["81", "591", "2082", "2087", "2095", "2096", "3000", "8000", "8001",
   "8008", "8080", "8083", "8443", "8834", "8888"]

/-- Expansion of one probe spec for one domain (main.go 194-225): the
switch on p sends every preset port template onto both queues, and an
explicit proto:port pair onto the HTTPS queue when the lowercased proto
equals https, otherwise onto the HTTP queue; a spec that SplitN cannot
cut into two parts is skipped (continue, main.go 211-213). -/
def expandSpec (domain : String) (p : String) : List (Queue × String) :=
  if p = "xlarge" then
    xlargePorts.flatMap (fun port =>
      [(Queue.https, domain ++ ":" ++ port), (Queue.http, domain ++ ":" ++ port)])
  else if p = "large" then
    largePorts.flatMap (fun port =>
      [(Queue.https, domain ++ ":" ++ port), (Queue.http, domain ++ ":" ++ port)])
  else
    match splitN2 p with
    | [proto, port] =>
        if lowerString proto = "https" then [(Queue.https, domain ++ ":" ++ port)]
        else [(Queue.http, domain ++ ":" ++ port)]
    | _ => []

/-- Expansion of the whole probe spec list, in order (main.go 194). -/
def expandProbes (domain : String) (probes : List String) : List (Queue × String) :=
  probes.flatMap (expandSpec domain)

/-- Per-hostname expansion (main.go 188-226): when defaults are not
skipped and no probe specs were given, the bare domain goes onto both
queues, https first (main.go 190-191); otherwise each supplied probe
spec is expanded in order. -/
def expandDomain (skipDefault : Bool) (probes : List String) (domain : String) :
    List (Queue × String) :=
  if (!skipDefault) && (probes.length == 0) then
    [(Queue.https, domain), (Queue.http, domain)]
  else
    expandProbes domain probes

lemma splitN2Core_no_colon :
    ∀ (cs acc : List Char), ':' ∉ cs →
      splitN2Core cs acc = [String.mk (acc.reverse ++ cs)] := by
  intro cs
  induction cs with
  | nil => intro acc _; simp [splitN2Core]
  | cons c cs ih =>
      intro acc hnot
      have hc : ¬ c = ':' := fun h => hnot (h ▸ List.mem_cons_self c cs)
      have hcs : ':' ∉ cs := fun h => hnot (List.mem_cons_of_mem c h)
      rw [splitN2Core, if_neg hc, ih (c :: acc) hcs]
      simp

lemma splitN2_no_colon (p : String) (h : ':' ∉ p.data) : splitN2 p = [p] := by
  rw [splitN2, splitN2Core_no_colon p.data [] h]
  rfl

/-- Every target produced by expandSpec is domain:port for some port, so
its string is strictly longer than the domain itself. -/
lemma mem_expandSpec_longer (domain p : String) (t : Queue × String)
    (ht : t ∈ expandSpec domain p) : domain.length < t.2.length := by
  have hfix : ∀ port : String, domain.length < (domain ++ ":" ++ port).length := by
    intro port
    have h1 : (domain ++ ":" ++ port).length = (domain ++ ":").length + port.length :=
      String.length_append _ _
    have h2 : (domain ++ ":").length = domain.length + 1 := String.length_append _ _
    omega
  rw [expandSpec] at ht
  by_cases hx : p = "xlarge"
  · rw [if_pos hx] at ht
    obtain ⟨port, _, hmem⟩ := List.mem_flatMap.mp ht
    rcases List.mem_cons.mp hmem with h | h
    · rw [h]; exact hfix port
    · simp only [List.mem_singleton] at h
      rw [h]; exact hfix port
  · rw [if_neg hx] at ht
    by_cases hl : p = "large"
    · rw [if_pos hl] at ht
      obtain ⟨port, _, hmem⟩ := List.mem_flatMap.mp ht
      rcases List.mem_cons.mp hmem with h | h
      · rw [h]; exact hfix port
      · simp only [List.mem_singleton] at h
        rw [h]; exact hfix port
    · rw [if_neg hl] at ht
      rcases hsp : splitN2 p with _ | ⟨proto, _ | ⟨port, _ | _⟩⟩ <;> rw [hsp] at ht
      · simp at ht
      · simp at ht
      · dsimp only at ht
        by_cases hproto : lowerString proto = "https"
        · rw [if_pos hproto] at ht
          simp only [List.mem_singleton] at ht
          rw [ht]; exact hfix port
        · rw [if_neg hproto] at ht
          simp only [List.mem_singleton] at ht
          rw [ht]; exact hfix port
      · simp at ht

/-- C7: a well-formed explicit probe spec, one that SplitN cuts into a
proto and a port, is routed by the expander onto the HTTPS queue alone
when the lowercased proto equals https, and onto the HTTP queue alone
otherwise. -/
theorem explicit_spec_routing (domain p proto port : String)
    (hsplit : splitN2 p = [proto, port]) :
    expandSpec domain p =
      if lowerString proto = "https" then [(Queue.https, domain ++ ":" ++ port)]
      else [(Queue.http, domain ++ ":" ++ port)] := by
  have hx : p ≠ "xlarge" := by
    intro h
    rw [h] at hsplit
    have : splitN2 "xlarge" = ["xlarge"] :=
      splitN2_no_colon _ (by decide)
    rw [this] at hsplit
    simp at hsplit
  have hl : p ≠ "large" := by
    intro h
    rw [h] at hsplit
    have : splitN2 "large" = ["large"] :=
      splitN2_no_colon _ (by decide)
    rw [this] at hsplit
    simp at hsplit
  rw [expandSpec, if_neg hx, if_neg hl, hsplit]

/-- Witness for the C7 theorem: https:8443 goes to the HTTPS queue only,
HTTP:8080 (proto not https after lowercasing is false, so https-equal
check fails) goes to the HTTP queue only. -/
theorem explicit_spec_routing_witness :
    expandSpec "example.com" "https:8443" = [(Queue.https, "example.com:8443")] ∧
    expandSpec "example.com" "HTTP:8080" = [(Queue.http, "example.com:8080")] := by
  constructor
  · rw [explicit_spec_routing "example.com" "https:8443" "https" "8443" (by decide)]
    decide
  · rw [explicit_spec_routing "example.com" "HTTP:8080" "HTTP" "8080" (by decide)]
    decide

/-- C8: a probe spec without a colon that is not a preset name expands
to zero targets, and the expansion of a probe list simply skips it,
processing the remaining specs unchanged. -/
theorem malformed_spec_skipped (domain p : String) (xs ys : List String)
    (hc : ':' ∉ p.data) (hx : p ≠ "xlarge") (hl : p ≠ "large") :
    expandSpec domain p = [] ∧
    expandProbes domain (xs ++ p :: ys) = expandProbes domain (xs ++ ys) := by
  have hempty : expandSpec domain p = [] := by
    rw [expandSpec, if_neg hx, if_neg hl, splitN2_no_colon p hc]
  refine ⟨hempty, ?_⟩
  simp only [expandProbes, List.flatMap_append, List.flatMap_cons, hempty,
    List.nil_append]

/-- Witness for the C8 theorem at the malformed spec noport of scenario 4. -/
theorem malformed_spec_skipped_witness :
    expandSpec "example.com" "noport" = [] ∧
    expandProbes "example.com" (["https:8443"] ++ "noport" :: ["http:81"]) =
      expandProbes "example.com" (["https:8443"] ++ ["http:81"]) := by
  exact malformed_spec_skipped "example.com" "noport" ["https:8443"] ["http:81"]
    (by decide) (by decide) (by decide)

/-- C9: the default bare-hostname probes on both queues are produced
exactly when skipDefault is false and the probe list is empty; any probe
spec suppresses them, and with skipDefault set and no probe specs the
hostname produces no targets at all. -/
theorem default_probes_iff (skipDefault : Bool) (probes : List String)
    (domain : String) :
    (((Queue.https, domain) ∈ expandDomain skipDefault probes domain ∧
        (Queue.http, domain) ∈ expandDomain skipDefault probes domain) ↔
      (skipDefault = false ∧ probes = [])) ∧
    (skipDefault = true → probes = [] →
      expandDomain skipDefault probes domain = []) := by
  constructor
  · by_cases hdef : ((!skipDefault) && (probes.length == 0)) = true
    · have hparts : skipDefault = false ∧ probes = [] := by
        simp only [Bool.and_eq_true, Bool.not_eq_true', beq_iff_eq,
          List.length_eq_zero] at hdef
        exact hdef
      rw [expandDomain, if_pos hdef]
      constructor
      · intro _; exact hparts
      · intro _
        exact ⟨List.mem_cons_self _ _, by simp⟩
    · rw [expandDomain, if_neg hdef]
      constructor
      · rintro ⟨h1, _⟩
        exfalso
        obtain ⟨q, _, hmem⟩ := List.mem_flatMap.mp h1
        have := mem_expandSpec_longer domain q _ hmem
        simp at this
      · rintro ⟨hsd, hpr⟩
        exfalso
        apply hdef
        rw [hsd, hpr]
        rfl
  · intro hsd hpr
    rw [expandDomain, hsd, hpr]
    rfl

/-- Witness for the C9 theorem: with defaults active both bare targets
are produced, and with skipDefault and no probes nothing is produced. -/
theorem default_probes_iff_witness :
    ((Queue.https, "example.com") ∈ expandDomain false [] "example.com" ∧
      (Queue.http, "example.com") ∈ expandDomain false [] "example.com") ∧
    expandDomain true [] "example.com" = [] := by
  constructor
  · exact (default_probes_iff false [] "example.com").1.mpr ⟨rfl, rfl⟩
  · exact (default_probes_iff true [] "example.com").2 rfl rfl

/-- C10: port 8083 belongs to the large preset but not to the xlarge
preset, so for any hostname the targets of the xlarge preset are not a
superset of those of the large preset. -/
theorem large_not_subset_xlarge :
    "8083" ∈ largePorts ∧ "8083" ∉ xlargePorts ∧
    ∀ domain : String,
      ¬ (∀ t ∈ expandSpec domain "large", t ∈ expandSpec domain "xlarge") := by
  refine ⟨by decide, by decide, ?_⟩
  intro domain hsub
  have hmem : (Queue.https, domain ++ ":" ++ "8083") ∈ expandSpec domain "large" := by
    rw [expandSpec, if_neg (by decide), if_pos rfl]
    exact List.mem_flatMap.mpr ⟨"8083", by decide, List.mem_cons_self _ _⟩
  have hbad := hsub _ hmem
  rw [expandSpec, if_pos rfl] at hbad
  obtain ⟨port, hport, hmem2⟩ := List.mem_flatMap.mp hbad
  have heq : domain ++ ":" ++ "8083" = domain ++ ":" ++ port := by
    rcases List.mem_cons.mp hmem2 with h | h
    · exact congrArg Prod.snd h
    · simp only [List.mem_singleton, Prod.mk.injEq] at h
      exact absurd h.1 (by decide)
  have hdata : (domain ++ ":").data ++ ("8083" : String).data =
      (domain ++ ":").data ++ port.data := by
    have := congrArg String.data heq
    simpa [String.data_append] using this
  have hp : ("8083" : String) = port := by
    apply String.ext
    exact List.append_cancel_left hdata
  rw [← hp] at hport
  exact absurd hport (by decide)

/-- Witness for the C10 theorem at a concrete hostname. -/
theorem large_not_subset_xlarge_witness :
    ¬ (∀ t ∈ expandSpec "example.com" "large",
        t ∈ expandSpec "example.com" "xlarge") :=
  large_not_subset_xlarge.2.2 "example.com"

/-- Targets a given hostname places directly onto the HTTP queue
(main.go 191, 201, 207, 222): the http-routed part of its expansion. -/
def directHTTPTargets (skipDefault : Bool) (probes : List String)
    (domain : String) : List String :=
  (expandDomain skipDefault probes domain).filterMap
    (fun t => if t.1 = Queue.http then some t.2 else none)

/-- Targets forwarded onto the HTTP queue by HTTPS workers
(main.go 124): the https-routed part of the expansion whose worker
iteration decides to forward, given each https target its probe
outcome. -/
def forwardedHTTPTargets (preferHTTPS skipDefault : Bool) (probes : List String)
    (httpsOut : String → ProbeOutcome) (domain : String) : List String :=
  (expandDomain skipDefault probes domain).filterMap
    (fun t =>
      if t.1 = Queue.https ∧ (httpsWorkerStep preferHTTPS t.2 (httpsOut t.2)).2 = true
      then some t.2 else none)

/-- All HTTP probe attempts the pipeline makes for a hostname: targets
the expander put on the HTTP queue directly plus targets forwarded by
the HTTPS stage.  Every entry of the HTTP queue is probed over http by
an HTTP worker (main.go 137-141). -/
def httpAttempts (preferHTTPS skipDefault : Bool) (probes : List String)
    (httpsOut : String → ProbeOutcome) (domain : String) : List String :=
  directHTTPTargets skipDefault probes domain ++
    forwardedHTTPTargets preferHTTPS skipDefault probes httpsOut domain

/-- C1 failing input: with preferHTTPS set, default probing (skipDefault
false, no probe specs) and an HTTPS probe of example.com that succeeds
with status 200, the pipeline still makes an HTTP probe attempt for
example.com: the expander enqueued it directly onto the HTTP queue
(main.go 191), even though the HTTPS stage correctly declined to
forward it (main.go 119-121, third conjunct). -/
theorem prefer_https_still_probes_http :
    "example.com" ∈ httpAttempts true false []
      (fun _ => ProbeOutcome.response 200 "") "example.com" ∧
    (getStatusAndRedirect (ProbeOutcome.response 200 "")).1 ≠ 0 ∧
    forwardedHTTPTargets true false []
      (fun _ => ProbeOutcome.response 200 "") "example.com" = [] := by
  refine ⟨?_, by decide, by decide⟩
  decide

/-- JSON value placed in a status-code bucket by writeJSONFile
(main.go 266-281): a bare URL string for ordinary codes, an object with
url and redirected_url fields for codes in [300,400). -/
inductive JSONEntry where
  | urlOnly (url : String) : JSONEntry
  | withRedirect (url redirectedURL : String) : JSONEntry
deriving DecidableEq

/-- Little-endian decimal digits of n; the fuel argument (n itself
suffices) makes the recursion structural. -/
def decDigitsAux : Nat → Nat → List Nat
  | 0, _ => []
  | fuel + 1, n => if n = 0 then [] else n % 10 :: decDigitsAux fuel (n / 10)

/-- Little-endian decimal digits of n, empty for 0. -/
def decDigits (n : Nat) : List Nat := decDigitsAux n n

/-- Value of a little-endian decimal digit list. -/
def ofDecDigits : List Nat → Nat
  | [] => 0
  | d :: ds => d + 10 * ofDecDigits ds

/-- Models fmt.Sprintf of the %d verb (main.go 263) on a Nat status
code: its decimal rendering. -/
def decimalString (n : Nat) : String :=
  if n = 0 then "0" else String.mk (((decDigits n).map Nat.digitChar).reverse)

/-- writeJSONFile's construction of the jsonData map (main.go 259-284):
every bucket of the ResultSet becomes one top-level entry keyed by the
decimal string of its status code; buckets of codes in [300,400) map to
url/redirected_url objects, all other buckets to bare URL strings. -/
def writeJSONData (results : List (Nat × List Result)) :
    List (String × List JSONEntry) :=
  results.map (fun p =>
    (decimalString p.1,
     p.2.map (fun res =>
       if 300 ≤ p.1 ∧ p.1 < 400 then JSONEntry.withRedirect res.URL res.RedirectedURL
       else JSONEntry.urlOnly res.URL)))

lemma ofDecDigits_decDigitsAux (fuel : Nat) :
    ∀ n : Nat, n ≤ fuel → ofDecDigits (decDigitsAux fuel n) = n := by
  induction fuel with
  | zero =>
      intro n hn
      have h0 : n = 0 := Nat.le_zero.mp hn
      subst h0
      rfl
  | succ fuel ih =>
      intro n hn
      by_cases h0 : n = 0
      · subst h0; rfl
      · have hdiv : n / 10 < n := Nat.div_lt_self (Nat.pos_of_ne_zero h0) (by omega)
        rw [decDigitsAux, if_neg h0, ofDecDigits, ih (n / 10) (by omega)]
        omega

lemma decDigits_injective (m n : Nat) (h : decDigits m = decDigits n) : m = n := by
  have hm := ofDecDigits_decDigitsAux m m le_rfl
  have hn := ofDecDigits_decDigitsAux n n le_rfl
  have h2 : decDigitsAux m m = decDigitsAux n n := h
  calc m = ofDecDigits (decDigitsAux m m) := hm.symm
    _ = ofDecDigits (decDigitsAux n n) := by rw [h2]
    _ = n := hn

lemma mem_decDigitsAux_lt (fuel : Nat) :
    ∀ n d, d ∈ decDigitsAux fuel n → d < 10 := by
  induction fuel with
  | zero => intro n d hd; simp [decDigitsAux] at hd
  | succ fuel ih =>
      intro n d hd
      by_cases h0 : n = 0
      · subst h0; simp [decDigitsAux] at hd
      · rw [decDigitsAux, if_neg h0] at hd
        rcases List.mem_cons.mp hd with h | h
        · subst h; exact Nat.mod_lt n (by omega)
        · exact ih (n / 10) d h

lemma digitChar_inj_lt :
    ∀ d < 10, ∀ e < 10, Nat.digitChar d = Nat.digitChar e → d = e := by decide

lemma map_digitChar_inj :
    ∀ l1 l2 : List Nat, (∀ d ∈ l1, d < 10) → (∀ d ∈ l2, d < 10) →
      l1.map Nat.digitChar = l2.map Nat.digitChar → l1 = l2 := by
  intro l1
  induction l1 with
  | nil =>
      intro l2 _ _ h
      cases l2 with
      | nil => rfl
      | cons e l2t => simp at h
  | cons d l1t ih =>
      intro l2 h1 h2 h
      cases l2 with
      | nil => simp at h
      | cons e l2t =>
          simp only [List.map_cons, List.cons.injEq] at h
          have hd : d = e :=
            digitChar_inj_lt d (h1 d (List.mem_cons_self _ _))
              e (h2 e (List.mem_cons_self _ _)) h.1
          have ht : l1t = l2t :=
            ih l2t (fun x hx => h1 x (List.mem_cons_of_mem _ hx))
              (fun x hx => h2 x (List.mem_cons_of_mem _ hx)) h.2
          rw [hd, ht]

lemma decimalString_injective : Function.Injective decimalString := by
  intro m n h
  have hzero : ∀ k : Nat, k ≠ 0 →
      ("0" : String) = String.mk (((decDigits k).map Nat.digitChar).reverse) → False := by
    intro k hk heq
    have hd := congrArg String.data heq
    have h0 : ("0" : String).data = ['0'] := rfl
    rw [h0] at hd
    have hrev := congrArg List.reverse hd
    simp only [List.reverse_reverse] at hrev
    have hmap : (decDigits k).map Nat.digitChar = ([0] : List Nat).map Nat.digitChar := by
      rw [← hrev]; rfl
    have hdig : decDigits k = [0] :=
      map_digitChar_inj _ _ (fun d hd => mem_decDigitsAux_lt k k d hd)
        (by intro d hd; simp at hd; omega) hmap
    have := ofDecDigits_decDigitsAux k k le_rfl
    rw [decDigits] at hdig
    rw [hdig] at this
    exact hk (by simpa [ofDecDigits] using this.symm)
  by_cases hm : m = 0 <;> by_cases hn : n = 0
  · omega
  · exfalso
    subst hm
    rw [decimalString, if_pos rfl, decimalString, if_neg hn] at h
    exact hzero n hn h
  · exfalso
    subst hn
    rw [decimalString, if_neg hm, decimalString, if_pos rfl] at h
    exact hzero m hm h.symm
  · rw [decimalString, if_neg hm, decimalString, if_neg hn] at h
    have hd := congrArg String.data h
    have hrev := congrArg List.reverse hd
    simp only [List.reverse_reverse] at hrev
    exact decDigits_injective m n
      (map_digitChar_inj _ _ (fun d hx => mem_decDigitsAux_lt m m d hx)
        (fun d hx => mem_decDigitsAux_lt n n d hx) hrev)

lemma keysOf_addResult_eq (m : List (Nat × List Result)) (r : Result) :
    keysOf (addResult m r) =
      if r.StatusCode ∈ keysOf m then keysOf m else keysOf m ++ [r.StatusCode] := by
  induction m with
  | nil => simp [addResult, keysOf]
  | cons q rest ih =>
      obtain ⟨k, l⟩ := q
      by_cases hk : k = r.StatusCode
      · subst hk
        simp [addResult, keysOf]
      · rw [addResult, if_neg hk]
        by_cases hmem : r.StatusCode ∈ keysOf rest
        · have hmem2 : r.StatusCode ∈ keysOf ((k, l) :: rest) :=
            List.mem_cons_of_mem k hmem
          rw [if_pos hmem2]
          show k :: keysOf (addResult rest r) = keysOf ((k, l) :: rest)
          rw [ih, if_pos hmem]
          rfl
        · have hmem2 : r.StatusCode ∉ keysOf ((k, l) :: rest) := by
            intro hx
            rcases List.mem_cons.mp hx with h1 | h1
            · exact hk h1.symm
            · exact hmem h1
          rw [if_neg hmem2]
          show k :: keysOf (addResult rest r) = keysOf ((k, l) :: rest) ++ [r.StatusCode]
          rw [ih, if_neg hmem]
          rfl

lemma nodup_keysOf_addResult (m : List (Nat × List Result)) (r : Result)
    (h : (keysOf m).Nodup) : (keysOf (addResult m r)).Nodup := by
  rw [keysOf_addResult_eq]
  by_cases hmem : r.StatusCode ∈ keysOf m
  · rw [if_pos hmem]; exact h
  · rw [if_neg hmem]
    simp only [List.nodup_append, List.nodup_singleton, true_and]
    exact ⟨h, by simpa [List.disjoint_singleton] using hmem⟩

lemma nodup_keysOf_aggregate (rs : List Result) : (keysOf (aggregate rs)).Nodup := by
  rw [aggregate]
  have hgen : ∀ m : List (Nat × List Result), (keysOf m).Nodup →
      (keysOf (rs.foldl addResult m)).Nodup := by
    induction rs with
    | nil => intro m hm; exact hm
    | cons r rest ih =>
        intro m hm
        exact ih (addResult m r) (nodup_keysOf_addResult m r hm)
  exact hgen [] (by simp [keysOf])

/-- Lookup of the bucket stored under key c in the association list. -/
def lookupB (c : Nat) : List (Nat × List Result) → List Result
  | [] => []
  | (k, l) :: rest => if k = c then l else lookupB c rest

lemma lookupB_addResult (c : Nat) (m : List (Nat × List Result)) (r : Result) :
    lookupB c (addResult m r) =
      if r.StatusCode = c then lookupB c m ++ [r] else lookupB c m := by
  induction m with
  | nil =>
      show (if r.StatusCode = c then [r] else lookupB c []) =
        if r.StatusCode = c then lookupB c [] ++ [r] else lookupB c []
      by_cases hc : r.StatusCode = c
      · rw [if_pos hc, if_pos hc]
        rfl
      · rw [if_neg hc, if_neg hc]
  | cons q rest ih =>
      obtain ⟨k, l⟩ := q
      by_cases hk : k = r.StatusCode
      · rw [addResult, if_pos hk, lookupB]
        by_cases hc : k = c
        · have hrc : r.StatusCode = c := hk.symm.trans hc
          rw [if_pos hc, if_pos hrc, lookupB, if_pos hc]
        · have hrc : ¬ r.StatusCode = c := fun hx => hc (hk.trans hx)
          rw [if_neg hc, if_neg hrc, lookupB, if_neg hc]
      · rw [addResult, if_neg hk, lookupB]
        by_cases hc : k = c
        · have hrc : ¬ r.StatusCode = c := fun hx => hk (hc.trans hx.symm)
          rw [if_pos hc, if_neg hrc, lookupB, if_pos hc]
        · rw [if_neg hc, ih]
          by_cases hrc : r.StatusCode = c
          · rw [if_pos hrc, if_pos hrc, lookupB, if_neg hc]
          · rw [if_neg hrc, if_neg hrc, lookupB, if_neg hc]

lemma lookupB_aggregate (c : Nat) (rs : List Result) :
    lookupB c (aggregate rs) = rs.filter (fun r => r.StatusCode == c) := by
  rw [aggregate]
  have hgen : ∀ m : List (Nat × List Result),
      lookupB c (rs.foldl addResult m) =
        lookupB c m ++ rs.filter (fun r => r.StatusCode == c) := by
    induction rs with
    | nil => intro m; simp
    | cons r rest ih =>
        intro m
        rw [List.foldl_cons, ih (addResult m r), lookupB_addResult]
        by_cases hrc : r.StatusCode = c
        · rw [if_pos hrc, List.filter_cons_of_pos (by simpa using hrc), List.append_assoc]
          rfl
        · rw [if_neg hrc, List.filter_cons_of_neg (by simpa using hrc)]
  rw [hgen []]
  rfl

lemma lookupB_of_mem_nodup (m : List (Nat × List Result))
    (h : (keysOf m).Nodup) (p : Nat × List Result) (hp : p ∈ m) :
    lookupB p.1 m = p.2 := by
  induction m with
  | nil => simp at hp
  | cons q rest ih =>
      rcases List.mem_cons.mp hp with hq | hq
      · subst hq
        obtain ⟨k, l⟩ := p
        show lookupB k ((k, l) :: rest) = l
        rw [lookupB, if_pos rfl]
      · obtain ⟨k, l⟩ := q
        have hk : k ≠ p.1 := by
          intro hx
          have : p.1 ∈ keysOf rest := by
            rw [keysOf]
            exact List.mem_map.mpr ⟨p, hq, rfl⟩
          rw [keysOf, List.map_cons] at h
          have := (List.nodup_cons.mp h).1
          exact this (hx ▸ ‹p.1 ∈ keysOf rest›)
        rw [lookupB, if_neg hk]
        apply ih _ hq
        rw [keysOf, List.map_cons] at h
        exact (List.nodup_cons.mp h).2

/-- C6: for every aggregated ResultSet, the JSON document has pairwise
distinct top-level keys; the decimal rendering of a code is a key
exactly when that code was observed in some Result; and every top-level
entry is the bucket of one code c, its array having exactly as many
elements as there are Results with code c, all of them url/redirected_url
objects when c is in [300,400) and all bare URL strings otherwise. -/
theorem json_groups_by_status (rs : List Result) :
    ((writeJSONData (aggregate rs)).map Prod.fst).Nodup ∧
    (∀ c : Nat,
      decimalString c ∈ (writeJSONData (aggregate rs)).map Prod.fst ↔
        c ∈ rs.map Result.StatusCode) ∧
    (∀ q ∈ writeJSONData (aggregate rs), ∃ c : Nat,
      q.1 = decimalString c ∧
      q.2.length = (rs.filter (fun r => r.StatusCode == c)).length ∧
      ((300 ≤ c ∧ c < 400) → ∀ e ∈ q.2, ∃ u v, e = JSONEntry.withRedirect u v) ∧
      (¬ (300 ≤ c ∧ c < 400) → ∀ e ∈ q.2, ∃ u, e = JSONEntry.urlOnly u)) := by
  have hkeys : (writeJSONData (aggregate rs)).map Prod.fst =
      (keysOf (aggregate rs)).map decimalString := by
    rw [writeJSONData, keysOf, List.map_map, List.map_map]
    rfl
  refine ⟨?_, ?_, ?_⟩
  · rw [hkeys]
    exact (nodup_keysOf_aggregate rs).map decimalString_injective
  · intro c
    rw [hkeys, ← mem_keysOf_aggregate]
    constructor
    · intro h
      obtain ⟨k, hk, heq⟩ := List.mem_map.mp h
      exact (decimalString_injective heq) ▸ hk
    · intro h
      exact List.mem_map.mpr ⟨c, h, rfl⟩
  · intro q hq
    obtain ⟨p, hp, hpq⟩ := List.mem_map.mp hq
    refine ⟨p.1, ?_, ?_, ?_, ?_⟩
    · rw [← hpq]
    · rw [← hpq]
      simp only [List.length_map]
      rw [← lookupB_aggregate, lookupB_of_mem_nodup _ (nodup_keysOf_aggregate rs) p hp]
    · intro hrange e he
      rw [← hpq] at he
      simp only at he
      obtain ⟨res, _, hres⟩ := List.mem_map.mp he
      rw [if_pos hrange] at hres
      exact ⟨res.URL, res.RedirectedURL, hres.symm⟩
    · intro hrange e he
      rw [← hpq] at he
      simp only at he
      obtain ⟨res, _, hres⟩ := List.mem_map.mp he
      rw [if_neg hrange] at hres
      exact ⟨res.URL, hres.symm⟩

/-- Witness for the C6 theorem at a concrete two-Result run: one 200 and
one 301 Result aggregated and rendered. -/
theorem json_groups_by_status_witness :
    ((writeJSONData (aggregate
        [Result.mk "https://a" 200 "", Result.mk "http://b" 301 "https://b/"])).map
          Prod.fst).Nodup ∧
    (decimalString 200 ∈ (writeJSONData (aggregate
        [Result.mk "https://a" 200 "", Result.mk "http://b" 301 "https://b/"])).map
          Prod.fst ↔
      200 ∈ ([Result.mk "https://a" 200 "", Result.mk "http://b" 301 "https://b/"]).map
        Result.StatusCode) := by
  constructor
  · exact (json_groups_by_status
      [Result.mk "https://a" 200 "", Result.mk "http://b" 301 "https://b/"]).1
  · exact (json_groups_by_status
      [Result.mk "https://a" 200 "", Result.mk "http://b" 301 "https://b/"]).2.1 200

/-- State of the pipeline's concurrency skeleton (main.go 94-180, 229-240).
Queues are modelled by their pending-item counts (an over-approximation
of the unbuffered channels: it admits every interleaving the rendezvous
channels admit).  One worker loop iteration (receive, probe, optional
sends) is one atomic step; this is sound because a worker counts as
active on its WaitGroup for the whole iteration, so no close guarded by
that WaitGroup can fire inside it.  badSend records that some send hit
an already-closed channel, which in Go is a panic. -/
structure PipeState where
  reading : Bool
  httpsActive : Nat
  httpActive : Nat
  httpsClosed : Bool
  httpClosed : Bool
  outClosed : Bool
  httpsQueue : Nat
  httpQueue : Nat
  outQueue : Nat
  aggActive : Bool
  emitted : Nat
  collected : Nat
  badSend : Bool
deriving DecidableEq

/-- Initial state: main is reading stdin, concurrency/2 workers per pool
(main.go 100, 133), all channels open and empty, the Aggregator running. -/
def initState (halfConc : Nat) : PipeState :=
  { reading := true
    httpsActive := halfConc
    httpActive := halfConc
    httpsClosed := false
    httpClosed := false
    outClosed := false
    httpsQueue := 0
    httpQueue := 0
    outQueue := 0
    aggActive := true
    emitted := 0
    collected := 0
    badSend := false }

/-- Transitions of the pipeline.
mainEnqHttps and mainEnqHttp are the expander sends (main.go 190-191,
200-201, 206-207, 220, 222); endInput is close(httpsURLs) after the
stdin loop (main.go 232); httpsTake is one HTTPS worker iteration with
its optional output send and optional forward (main.go 104-125, emit and
forward cover every combination the worker body can produce); httpsExit
is a worker leaving its range loop, possible once httpsURLs is closed
and drained (main.go 127); closeHttp is the goroutine doing
httpsWG.Wait then close(httpURLs) (main.go 158-161); httpTake, httpExit
mirror the HTTP pool (main.go 136-154); closeOut is httpWG.Wait then
close(output) (main.go 177-180); collect is the Aggregator consuming a
Result (main.go 170-171); aggExit is its range loop ending once output
is closed and drained (main.go 173). -/
inductive Step : PipeState → PipeState → Prop where
  | mainEnqHttps (s : PipeState) (h : s.reading = true) :
      Step s { s with
        httpsQueue := s.httpsQueue + 1
        badSend := s.badSend || s.httpsClosed }
  | mainEnqHttp (s : PipeState) (h : s.reading = true) :
      Step s { s with
        httpQueue := s.httpQueue + 1
        badSend := s.badSend || s.httpClosed }
  | endInput (s : PipeState) (h : s.reading = true) :
      Step s { s with reading := false, httpsClosed := true }
  | httpsTake (s : PipeState) (emit fwd : Bool)
      (ha : 0 < s.httpsActive) (hq : 0 < s.httpsQueue) :
      Step s { s with
        httpsQueue := s.httpsQueue - 1
        outQueue := s.outQueue + (if emit then 1 else 0)
        emitted := s.emitted + (if emit then 1 else 0)
        httpQueue := s.httpQueue + (if fwd then 1 else 0)
        badSend := s.badSend || (emit && s.outClosed) || (fwd && s.httpClosed) }
  | httpsExit (s : PipeState) (ha : 0 < s.httpsActive)
      (hc : s.httpsClosed = true) (hq : s.httpsQueue = 0) :
      Step s { s with httpsActive := s.httpsActive - 1 }
  | closeHttp (s : PipeState) (h : s.httpsActive = 0) (hc : s.httpClosed = false) :
      Step s { s with httpClosed := true }
  | httpTake (s : PipeState) (emit : Bool)
      (ha : 0 < s.httpActive) (hq : 0 < s.httpQueue) :
      Step s { s with
        httpQueue := s.httpQueue - 1
        outQueue := s.outQueue + (if emit then 1 else 0)
        emitted := s.emitted + (if emit then 1 else 0)
        badSend := s.badSend || (emit && s.outClosed) }
  | httpExit (s : PipeState) (ha : 0 < s.httpActive)
      (hc : s.httpClosed = true) (hq : s.httpQueue = 0) :
      Step s { s with httpActive := s.httpActive - 1 }
  | closeOut (s : PipeState) (h : s.httpActive = 0) (hc : s.outClosed = false) :
      Step s { s with outClosed := true }
  | collect (s : PipeState) (ha : s.aggActive = true) (hq : 0 < s.outQueue) :
      Step s { s with outQueue := s.outQueue - 1, collected := s.collected + 1 }
  | aggExit (s : PipeState) (ha : s.aggActive = true)
      (hc : s.outClosed = true) (hq : s.outQueue = 0) :
      Step s { s with aggActive := false }

/-- States reachable from the initial state with halfConc workers per pool. -/
inductive Reachable (halfConc : Nat) : PipeState → Prop where
  | init : Reachable halfConc (initState halfConc)
  | step {s t : PipeState} :
      Reachable halfConc s → Step s t → Reachable halfConc t

/-- Inductive invariant of the pipeline for halfConc ≥ 1. -/
structure PipeInv (halfConc : Nat) (s : PipeState) : Prop where
  phaseClosed : s.httpsClosed = !s.reading
  httpsFull : s.httpsClosed = false → s.httpsActive = halfConc
  httpFull : s.httpClosed = false → s.httpActive = halfConc
  httpsAtClose : s.httpClosed = true → s.httpsActive = 0
  httpAtClose : s.outClosed = true → s.httpActive = 0
  httpsDrained : s.httpsActive = 0 → s.httpsQueue = 0 ∧ s.httpsClosed = true
  httpDrained : s.httpActive = 0 → s.httpQueue = 0
  aggDone : s.aggActive = false → s.outClosed = true ∧ s.outQueue = 0
  balance : s.collected + s.outQueue = s.emitted
  noBad : s.badSend = false

lemma pipeInv_init (halfConc : Nat) (h1 : 1 ≤ halfConc) :
    PipeInv halfConc (initState halfConc) := by
  refine ⟨rfl, fun _ => rfl, fun _ => rfl, ?_, ?_, ?_, fun _ => rfl, ?_, rfl, rfl⟩
  · intro h
    exact absurd (show (false : Bool) = true from h) (by decide)
  · intro h
    exact absurd (show (false : Bool) = true from h) (by decide)
  · intro h
    exact absurd (show halfConc = 0 from h) (by omega)
  · intro h
    exact absurd (show (true : Bool) = false from h) (by decide)

lemma pipeInv_step (halfConc : Nat) (h1 : 1 ≤ halfConc) {s t : PipeState}
    (hi : PipeInv halfConc s) (hs : Step s t) : PipeInv halfConc t := by
  have dReadingOpen : s.reading = true → s.httpsClosed = false := by
    intro h
    rw [hi.phaseClosed, h]
    rfl
  have dHttpsClosedOfZero : s.httpsActive = 0 → s.httpsClosed = true := by
    intro h
    by_contra hne
    have hf : s.httpsClosed = false := by simpa using hne
    have := hi.httpsFull hf
    omega
  have dHttpClosedOfZero : s.httpActive = 0 → s.httpClosed = true := by
    intro h
    by_contra hne
    have hf : s.httpClosed = false := by simpa using hne
    have := hi.httpFull hf
    omega
  have dReadingHttpOpen : s.reading = true → s.httpClosed = false := by
    intro h
    by_contra hne
    have hcl : s.httpClosed = true := by simpa using hne
    have h0 := hi.httpsAtClose hcl
    have hcl2 := (hi.httpsDrained h0).2
    rw [dReadingOpen h] at hcl2
    exact absurd hcl2 (by decide)
  have dActiveHttpsOpenHttp : 0 < s.httpsActive → s.httpClosed = false := by
    intro h
    by_contra hne
    have hcl : s.httpClosed = true := by simpa using hne
    have := hi.httpsAtClose hcl
    omega
  have dOutClosedHttpClosed : s.outClosed = true → s.httpClosed = true :=
    fun h => dHttpClosedOfZero (hi.httpAtClose h)
  have dActiveHttpsOpenOut : 0 < s.httpsActive → s.outClosed = false := by
    intro h
    by_contra hne
    have hcl : s.outClosed = true := by simpa using hne
    have := hi.httpsAtClose (dOutClosedHttpClosed hcl)
    omega
  have dActiveHttpOpenOut : 0 < s.httpActive → s.outClosed = false := by
    intro h
    by_contra hne
    have hcl : s.outClosed = true := by simpa using hne
    have := hi.httpAtClose hcl
    omega
  cases hs with
  | mainEnqHttps h =>
      refine ⟨hi.phaseClosed, hi.httpsFull, hi.httpFull, hi.httpsAtClose,
        hi.httpAtClose, ?_, hi.httpDrained, hi.aggDone, hi.balance, ?_⟩
      · intro h0
        have hcl := (hi.httpsDrained (show s.httpsActive = 0 from h0)).2
        rw [dReadingOpen h] at hcl
        exact absurd hcl (by decide)
      · show (s.badSend || s.httpsClosed) = false
        rw [hi.noBad, dReadingOpen h]
        rfl
  | mainEnqHttp h =>
      refine ⟨hi.phaseClosed, hi.httpsFull, hi.httpFull, hi.httpsAtClose,
        hi.httpAtClose, hi.httpsDrained, ?_, hi.aggDone, hi.balance, ?_⟩
      · intro h0
        have hcl := dHttpClosedOfZero (show s.httpActive = 0 from h0)
        rw [dReadingHttpOpen h] at hcl
        exact absurd hcl (by decide)
      · show (s.badSend || s.httpClosed) = false
        rw [hi.noBad, dReadingHttpOpen h]
        rfl
  | endInput h =>
      refine ⟨rfl, ?_, hi.httpFull, hi.httpsAtClose, hi.httpAtClose, ?_,
        hi.httpDrained, hi.aggDone, hi.balance, hi.noBad⟩
      · intro hx
        exact absurd (show (true : Bool) = false from hx) (by decide)
      · intro h0
        exact ⟨(hi.httpsDrained (show s.httpsActive = 0 from h0)).1, rfl⟩
  | httpsTake emit fwd ha hq =>
      refine ⟨hi.phaseClosed, hi.httpsFull, hi.httpFull, hi.httpsAtClose,
        hi.httpAtClose, ?_, ?_, ?_, ?_, ?_⟩
      · intro h0
        exact absurd (show s.httpsActive = 0 from h0) (by omega)
      · intro h0
        have := hi.httpsAtClose (dHttpClosedOfZero (show s.httpActive = 0 from h0))
        exact absurd this (by omega)
      · intro hagg
        have hcl := (hi.aggDone (show s.aggActive = false from hagg)).1
        rw [dActiveHttpsOpenOut ha] at hcl
        exact absurd hcl (by decide)
      · show s.collected + (s.outQueue + (if emit then 1 else 0)) =
          s.emitted + (if emit then 1 else 0)
        have hb := hi.balance
        cases emit <;> simp <;> omega
      · show (s.badSend || (emit && s.outClosed) || (fwd && s.httpClosed)) = false
        rw [hi.noBad, dActiveHttpsOpenOut ha, dActiveHttpsOpenHttp ha]
        simp
  | httpsExit ha hc hq =>
      refine ⟨hi.phaseClosed, ?_, hi.httpFull, ?_, hi.httpAtClose, ?_,
        hi.httpDrained, hi.aggDone, hi.balance, hi.noBad⟩
      · intro hx
        exact absurd (hc.symm.trans (show s.httpsClosed = false from hx)) (by decide)
      · intro hcl
        have := hi.httpsAtClose (show s.httpClosed = true from hcl)
        exact absurd this (by omega)
      · intro _
        exact ⟨hq, hc⟩
  | closeHttp h hc =>
      refine ⟨hi.phaseClosed, hi.httpsFull, ?_, ?_, hi.httpAtClose,
        hi.httpsDrained, hi.httpDrained, hi.aggDone, hi.balance, hi.noBad⟩
      · intro hx
        exact absurd (show (true : Bool) = false from hx) (by decide)
      · intro _
        exact h
  | httpTake emit ha hq =>
      refine ⟨hi.phaseClosed, hi.httpsFull, hi.httpFull, hi.httpsAtClose,
        hi.httpAtClose, hi.httpsDrained, ?_, ?_, ?_, ?_⟩
      · intro h0
        exact absurd (show s.httpActive = 0 from h0) (by omega)
      · intro hagg
        have hcl := (hi.aggDone (show s.aggActive = false from hagg)).1
        rw [dActiveHttpOpenOut ha] at hcl
        exact absurd hcl (by decide)
      · show s.collected + (s.outQueue + (if emit then 1 else 0)) =
          s.emitted + (if emit then 1 else 0)
        have hb := hi.balance
        cases emit <;> simp <;> omega
      · show (s.badSend || (emit && s.outClosed)) = false
        rw [hi.noBad, dActiveHttpOpenOut ha]
        simp
  | httpExit ha hc hq =>
      refine ⟨hi.phaseClosed, hi.httpsFull, ?_, hi.httpsAtClose, ?_,
        hi.httpsDrained, ?_, hi.aggDone, hi.balance, hi.noBad⟩
      · intro hx
        exact absurd (hc.symm.trans (show s.httpClosed = false from hx)) (by decide)
      · intro hcl
        have := hi.httpAtClose (show s.outClosed = true from hcl)
        exact absurd this (by omega)
      · intro _
        exact hq
  | closeOut h hc =>
      refine ⟨hi.phaseClosed, hi.httpsFull, hi.httpFull, hi.httpsAtClose, ?_,
        hi.httpsDrained, hi.httpDrained, ?_, hi.balance, hi.noBad⟩
      · intro _
        exact h
      · intro hagg
        exact ⟨rfl, (hi.aggDone (show s.aggActive = false from hagg)).2⟩
  | collect ha hq =>
      refine ⟨hi.phaseClosed, hi.httpsFull, hi.httpFull, hi.httpsAtClose,
        hi.httpAtClose, hi.httpsDrained, hi.httpDrained, ?_, ?_, hi.noBad⟩
      · intro hagg
        exact absurd (ha.symm.trans (show s.aggActive = false from hagg)) (by decide)
      · show s.collected + 1 + (s.outQueue - 1) = s.emitted
        have hb := hi.balance
        omega
  | aggExit ha hc hq =>
      refine ⟨hi.phaseClosed, hi.httpsFull, hi.httpFull, hi.httpsAtClose,
        hi.httpAtClose, hi.httpsDrained, hi.httpDrained, ?_, hi.balance, hi.noBad⟩
      · intro _
        exact ⟨hc, hq⟩

lemma pipeInv_reachable (halfConc : Nat) (h1 : 1 ≤ halfConc) {s : PipeState}
    (hr : Reachable halfConc s) : PipeInv halfConc s := by
  induction hr with
  | init => exact pipeInv_init halfConc h1
  | step hr hstep ih => exact pipeInv_step halfConc h1 ih hstep

/-- C4 amended: provided each pool has at least one worker (concurrency
at least 2), in every reachable state the HTTP queue is closed only
after all HTTPS workers have finished, the Result channel is closed only
after all HTTP workers have finished, no send ever hits a closed channel,
and when the Aggregator finishes every emitted Result has been collected
and every queue has been drained: nothing forwarded or in flight is
dropped. -/
theorem shutdown_order_safe (halfConc : Nat) (s : PipeState)
    (h1 : 1 ≤ halfConc) (hr : Reachable halfConc s) :
    (s.httpClosed = true → s.httpsActive = 0) ∧
    (s.outClosed = true → s.httpActive = 0) ∧
    s.badSend = false ∧
    (s.aggActive = false →
      s.collected = s.emitted ∧ s.outQueue = 0 ∧ s.httpQueue = 0 ∧ s.httpsQueue = 0) := by
  have hi := pipeInv_reachable halfConc h1 hr
  refine ⟨hi.httpsAtClose, hi.httpAtClose, hi.noBad, ?_⟩
  intro hagg
  obtain ⟨hoc, hoq⟩ := hi.aggDone hagg
  have hbal := hi.balance
  have hhttp0 : s.httpActive = 0 := hi.httpAtClose hoc
  have hhttpq : s.httpQueue = 0 := hi.httpDrained hhttp0
  have hhttpcl : s.httpClosed = true := by
    by_contra hne
    have := hi.httpFull (by simpa using hne)
    omega
  have hhttps0 : s.httpsActive = 0 := hi.httpsAtClose hhttpcl
  have hhttpsq : s.httpsQueue = 0 := (hi.httpsDrained hhttps0).1
  exact ⟨by omega, hoq, hhttpq, hhttpsq⟩

/-- Witness for the amended C4 theorem at halfConc = 1 in the initial
state. -/
theorem shutdown_order_safe_witness :
    ((initState 1).httpClosed = true → (initState 1).httpsActive = 0) ∧
    ((initState 1).outClosed = true → (initState 1).httpActive = 0) ∧
    (initState 1).badSend = false ∧
    ((initState 1).aggActive = false →
      (initState 1).collected = (initState 1).emitted ∧ (initState 1).outQueue = 0 ∧
        (initState 1).httpQueue = 0 ∧ (initState 1).httpsQueue = 0) :=
  shutdown_order_safe 1 (initState 1) (by decide) Reachable.init

/-- The state reached from initState 0 after close(httpURLs) fires (no
HTTPS workers, so httpsWG.Wait returns at once) and main then sends a
probe target onto the already-closed HTTP queue. -/
def badSendState : PipeState :=
  { reading := true
    httpsActive := 0
    httpActive := 0
    httpsClosed := false
    httpClosed := true
    outClosed := false
    httpsQueue := 0
    httpQueue := 1
    outQueue := 0
    aggActive := true
    emitted := 0
    collected := 0
    badSend := true }

/-- C4 counterexample: with concurrency 1 (or 0) each pool has
concurrency/2 = 0 workers, so httpsWG.Wait returns immediately and the
supervisory goroutine may close the HTTP queue while main is still
reading stdin; a probe spec such as http:8080 then makes main send on
the closed HTTP queue, a Go panic.  The claimed consequence that no
send on a closed channel occurs is therefore reachable-false. -/
theorem shutdown_bad_send_reachable :
    Reachable 0 badSendState ∧ badSendState.badSend = true := by
  constructor
  · have h1 : Step (initState 0) { initState 0 with httpClosed := true } :=
      Step.closeHttp (initState 0) rfl rfl
    have h2 : Step { initState 0 with httpClosed := true } badSendState := by
      have := Step.mainEnqHttp { initState 0 with httpClosed := true } rfl
      simpa [initState, badSendState] using this
    exact Reachable.step (Reachable.step Reachable.init h1) h2
  · rfl

end DomainJaasoos
